import Mathlib

/-
Shallow embedding of `lib/Target/LLVMIR/LLVMIRTranslation.cpp` (Triton):
the NVVM metadata extraction, the translation/optimization driver, and the
metadata re-attachment, together with proofs about them.

The external services (the generic MLIR-to-LLVM translator and the LLVM
optimization pipeline) are opaque collaborators in the source; here they are
oracle parameters of the driver.
-/

namespace TritonLLVMIR

/-- Encoding of an MLIR attribute value as seen by `extractNVVMMetadata`:
either an `IntegerAttr` carrying a 64-bit signed integer (read by
`getInt()`), or any other (non-integer) attribute encoding. -/
inductive MLIRAttr where
  | intAttr (v : Int) : MLIRAttr
  | otherAttr : MLIRAttr
  deriving DecidableEq

/-- An MLIR `LLVMFuncOp` as relevant to `extractNVVMMetadata`: its symbol
name, the optional `NVVMMetadataField::MaxNTid` attribute with its value
encoding, and whether the `NVVMMetadataField::Kernel` attribute is present. -/
structure MLIRFunc where
  name : String
  maxntidAttr : Option MLIRAttr
  kernelAttr : Bool
  deriving DecidableEq

/-- The source MLIR module: its `LLVMFuncOp` operations in order. -/
structure MLIRModule where
  funcs : List MLIRFunc
  deriving DecidableEq

/-- C++ struct `NVVMMetadata`: `maxntidx` is a C++ `int` (32-bit signed,
default `-1`), `is_kernel` defaults to `false`. -/
structure NVVMMetadata where
  maxntidx : Int := -1
  is_kernel : Bool := false
  deriving DecidableEq

/-- Narrowing of a 64-bit signed value to the 32-bit signed `int` field, as
performed by the implicit conversion in
`meta.maxntidx = attr.dyn_cast<IntegerAttr>().getInt();`
(two's-complement wrap-around: reduce modulo 2^32 = 4294967296,
reinterpret signed with 2^31 = 2147483648). -/
def toInt32 (v : Int) : Int := (v + 2147483648) % 4294967296 - 2147483648

/-- One operand of the `nvvm.annotations` named metadata: a function
reference (by name), an `MDString` key, and an i32 constant value. -/
structure MDEntry where
  funcName : String
  key : String
  value : Int
  deriving DecidableEq

/-- An LLVM IR function, matched back to the side-table purely by name. -/
structure LLVMFunction where
  name : String
  deriving DecidableEq

/-- An LLVM IR module: its functions and the operand list of the
`nvvm.annotations` named metadata collection. -/
structure LLVMModule where
  funcs : List LLVMFunction
  nvvmAnns : List MDEntry
  deriving DecidableEq

/-- The side-table `llvm::DenseMap<llvm::StringRef, NVVMMetadata>`,
modelled as an association list with unique keys. -/
abbrev Table := List (String × NVVMMetadata)

/-- DenseMap `find`: the first binding for the key, if any. -/
def findTbl (k : String) : Table → Option NVVMMetadata
  | [] => none
  | (k2, m) :: tbl => if k2 = k then some m else findTbl k tbl

/-- DenseMap `try_emplace`: inserts the binding only if the key is absent;
an existing binding is never overwritten. -/
def tryEmplace (tbl : Table) (k : String) (m : NVVMMetadata) : Table :=
  match findTbl k tbl with
  | some _ => tbl
  | none => tbl ++ [(k, m)]

/-- C++ `amendLLVMFunc`: appends to the module's `nvvm.annotations`
collection a `(func, "maxntidx", i32 maxntidx)` node when
`metadata.maxntidx > 0`, then a `(func, "kernel", i32 1)` node when
`metadata.is_kernel`. Modelled as a transformation of the collection's
operand list. -/
def amendLLVMFunc (fname : String) (metadata : NVVMMetadata)
    (anns : List MDEntry) : List MDEntry :=
  let anns1 := if 0 < metadata.maxntidx then
    anns ++ [⟨fname, "maxntidx", metadata.maxntidx⟩] else anns
  if metadata.is_kernel then anns1 ++ [⟨fname, "kernel", 1⟩] else anns1

/-- The nodes `amendLLVMFunc` appends for one record. -/
def amendList (fname : String) (metadata : NVVMMetadata) : List MDEntry :=
  (if 0 < metadata.maxntidx then
    [(⟨fname, "maxntidx", metadata.maxntidx⟩ : MDEntry)] else []) ++
  (if metadata.is_kernel then [(⟨fname, "kernel", 1⟩ : MDEntry)] else [])

/-- Outcome of scanning one function in the `extractNVVMMetadata` loop. -/
inductive FuncScan where
  | crash : FuncScan
  | skip : FuncScan
  | record (m : NVVMMetadata) : FuncScan
  deriving DecidableEq

/-- Loop body of `extractNVVMMetadata` for one `LLVMFuncOp`. `.crash`
models the unchecked `attr.dyn_cast<IntegerAttr>().getInt()` on a
non-integer attribute: the `dyn_cast` yields a null attribute and `getInt`
dereferences it, aborting the process without any diagnostic. `.skip` is
the `hasMetadata == false` case: no record is inserted. -/
def scanFunc (f : MLIRFunc) : FuncScan :=
  match f.maxntidAttr with
  | some (MLIRAttr.intAttr v) =>
    FuncScan.record { maxntidx := toInt32 v, is_kernel := f.kernelAttr }
  | some MLIRAttr.otherAttr => FuncScan.crash
  | none =>
    if f.kernelAttr then FuncScan.record { is_kernel := true } else FuncScan.skip

/-- Result of extraction: the completed side-table, or the abort described
at `FuncScan.crash` (no table, no diagnostic). -/
inductive ExtractResult where
  | ok (tbl : Table) : ExtractResult
  | crash : ExtractResult
  deriving DecidableEq

/-- The `extractNVVMMetadata` loop over the remaining functions, with the
side-table accumulated so far. -/
def extractGo : List MLIRFunc → Table → ExtractResult
  | [], tbl => ExtractResult.ok tbl
  | f :: fs, tbl =>
    match scanFunc f with
    | FuncScan.crash => ExtractResult.crash
    | FuncScan.skip => extractGo fs tbl
    | FuncScan.record m => extractGo fs (tryEmplace tbl f.name m)

/-- C++ `extractNVVMMetadata`: builds the name-keyed side-table from the
source module's functions. -/
def extractNVVMMetadata (module : MLIRModule) : ExtractResult :=
  extractGo module.funcs []

/-- Modelled from the spec (the loop of the extraction behavior §7 of the
spec demands, which the source does not implement): on a non-integer
thread-group-limit encoding, fail fast with a descriptive message naming
the offending function instead of dereferencing the failed cast. -/
def extractGoSpec : List MLIRFunc → Table → Except String Table
  | [], tbl => Except.ok tbl
  | f :: fs, tbl =>
    match scanFunc f with
    | FuncScan.crash =>
      Except.error ("non-integer maxntid attribute on function " ++ f.name)
    | FuncScan.skip => extractGoSpec fs tbl
    | FuncScan.record m => extractGoSpec fs (tryEmplace tbl f.name m)

/-- Modelled from the spec: extraction as §7 of the spec describes it. -/
def extractNVVMMetadataSpec (module : MLIRModule) : Except String Table :=
  extractGoSpec module.funcs []

/-- The re-attachment loop at the end of `TranslateLLVMToLLVMIR`: iterate
the translated module's functions in order; on a side-table match, amend. -/
def reattachAnns (tbl : Table) : List LLVMFunction → List MDEntry → List MDEntry
  | [], anns => anns
  | f :: fs, anns =>
    match findTbl f.name tbl with
    | some meta => reattachAnns tbl fs (amendLLVMFunc f.name meta anns)
    | none => reattachAnns tbl fs anns

/-- Re-attachment over a whole module: only the `nvvm.annotations`
collection changes; the function list is untouched. -/
def reattach (tbl : Table) (m : LLVMModule) : LLVMModule :=
  { m with nvvmAnns := reattachAnns tbl m.funcs m.nvvmAnns }

/-- Result of `TranslateLLVMToLLVMIR`: an owned module, a `nullptr` return
after a diagnostic was written to `llvm::errs()`, or the extraction abort. -/
inductive TransResult where
  | ok (m : LLVMModule) : TransResult
  | err (diag : String) : TransResult
  | crash : TransResult
  deriving DecidableEq

/-- C++ `TranslateLLVMToLLVMIR`. The generic translator
(`mlir::translateModuleToLLVMIR`) and the in-place optimization pipeline
(`mlir::makeOptimizingTransformer(3, 0, nullptr)` applied to the module)
are external services, passed as oracles; the optimizer oracle returns the
optimized module or the `llvm::Error` description. Dialect registration,
`init_llvm` and `setupTargetTriple` have no observable effect on the
modelled state. -/
def TranslateLLVMToLLVMIR (translate : MLIRModule → Option LLVMModule)
    (optimize : LLVMModule → Except String LLVMModule)
    (module : MLIRModule) : TransResult :=
  match extractNVVMMetadata module with
  | ExtractResult.crash => TransResult.crash
  | ExtractResult.ok nvvmMetadata =>
    match translate module with
    | none => TransResult.err "Failed to emit LLVM IR\n"
    | some llvmModule =>
      match optimize llvmModule with
      | Except.error e =>
        TransResult.err ("Failed to optimize LLVM IR " ++ e ++ "\n")
      | Except.ok optimized => TransResult.ok (reattach nvvmMetadata optimized)

/- ## Helper lemmas about the side-table -/

theorem findTbl_append_some (k : String) (t1 t2 : Table) (m : NVVMMetadata)
    (h : findTbl k t1 = some m) : findTbl k (t1 ++ t2) = some m := by
  induction t1 with
  | nil => simp [findTbl] at h
  | cons p t ih =>
    obtain ⟨k2, m2⟩ := p
    by_cases hk : k2 = k
    · simp only [findTbl, if_pos hk] at h
      simp only [List.cons_append, findTbl, if_pos hk]
      exact h
    · simp only [findTbl, if_neg hk] at h
      simp only [List.cons_append, findTbl, if_neg hk]
      exact ih h

theorem findTbl_append_none (k : String) (t1 t2 : Table)
    (h : findTbl k t1 = none) : findTbl k (t1 ++ t2) = findTbl k t2 := by
  induction t1 with
  | nil => simp
  | cons p t ih =>
    obtain ⟨k2, m2⟩ := p
    by_cases hk : k2 = k
    · simp only [findTbl, if_pos hk] at h
      exact absurd h (by simp)
    · simp only [findTbl, if_neg hk] at h
      simp only [List.cons_append, findTbl, if_neg hk]
      exact ih h

theorem tryEmplace_keeps (tbl : Table) (k k2 : String) (m m2 : NVVMMetadata)
    (h : findTbl k tbl = some m) :
    findTbl k (tryEmplace tbl k2 m2) = some m := by
  unfold tryEmplace
  cases hfind : findTbl k2 tbl with
  | some m3 => exact h
  | none => exact findTbl_append_some k tbl [(k2, m2)] m h

theorem tryEmplace_absent (tbl : Table) (k k2 : String) (m2 : NVVMMetadata)
    (hne : k2 ≠ k) (h : findTbl k tbl = none) :
    findTbl k (tryEmplace tbl k2 m2) = none := by
  unfold tryEmplace
  cases hfind : findTbl k2 tbl with
  | some m3 => exact h
  | none =>
    rw [findTbl_append_none k tbl [(k2, m2)] h]
    simp [findTbl, hne]

theorem tryEmplace_insert (tbl : Table) (k : String) (m : NVVMMetadata)
    (h : findTbl k tbl = none) :
    findTbl k (tryEmplace tbl k m) = some m := by
  unfold tryEmplace
  rw [h, findTbl_append_none k tbl [(k, m)] h]
  simp [findTbl]

theorem findTbl_none_iff (k : String) (tbl : Table) :
    findTbl k tbl = none ↔ k ∉ tbl.map Prod.fst := by
  induction tbl with
  | nil => simp [findTbl]
  | cons p t ih =>
    obtain ⟨k2, m2⟩ := p
    by_cases hk : k2 = k
    · simp [findTbl, hk]
    · simp [findTbl, hk, ih, Ne.symm hk]

theorem tryEmplace_nodup (tbl : Table) (k : String) (m : NVVMMetadata)
    (h : (tbl.map Prod.fst).Nodup) :
    ((tryEmplace tbl k m).map Prod.fst).Nodup := by
  unfold tryEmplace
  cases hfind : findTbl k tbl with
  | some m2 => exact h
  | none =>
    have hk : k ∉ tbl.map Prod.fst := (findTbl_none_iff k tbl).mp hfind
    simp only [List.map_append, List.map_cons, List.map_nil]
    rw [List.nodup_append]
    refine ⟨h, List.nodup_singleton k, ?_⟩
    intro a ha hamem
    rw [List.mem_singleton] at hamem
    exact hk (hamem ▸ ha)

/- ## Helper lemmas about the extraction loop -/

theorem extractGo_keeps (fs : List MLIRFunc) (tbl tbl2 : Table) (k : String)
    (m : NVVMMetadata) (h : findTbl k tbl = some m)
    (hgo : extractGo fs tbl = ExtractResult.ok tbl2) :
    findTbl k tbl2 = some m := by
  induction fs generalizing tbl with
  | nil =>
    simp only [extractGo, ExtractResult.ok.injEq] at hgo
    exact hgo ▸ h
  | cons f fs ih =>
    simp only [extractGo] at hgo
    cases hscan : scanFunc f <;> rw [hscan] at hgo
    · exact absurd hgo (by simp)
    · exact ih tbl h hgo
    · exact ih _ (tryEmplace_keeps tbl k f.name m _ h) hgo

theorem extractGo_reach (post : List MLIRFunc) (f : MLIRFunc) (m : NVVMMetadata)
    (hf : scanFunc f = FuncScan.record m) :
    ∀ (pre : List MLIRFunc) (tbl tbl2 : Table),
      (∀ p ∈ pre, p.name ≠ f.name) → findTbl f.name tbl = none →
      extractGo (pre ++ f :: post) tbl = ExtractResult.ok tbl2 →
      findTbl f.name tbl2 = some m := by
  intro pre
  induction pre with
  | nil =>
    intro tbl tbl2 _ habs hgo
    simp only [List.nil_append, extractGo, hf] at hgo
    exact extractGo_keeps post _ tbl2 f.name m (tryEmplace_insert tbl f.name m habs) hgo
  | cons p pre ih =>
    intro tbl tbl2 hpre habs hgo
    have hpname : p.name ≠ f.name := hpre p (List.mem_cons_self p pre)
    have hpre2 : ∀ q ∈ pre, q.name ≠ f.name := fun q hq => hpre q (List.mem_cons_of_mem p hq)
    simp only [List.cons_append, extractGo] at hgo
    cases hscan : scanFunc p <;> rw [hscan] at hgo
    · exact absurd hgo (by simp)
    · exact ih tbl tbl2 hpre2 habs hgo
    · exact ih _ tbl2 hpre2 (tryEmplace_absent tbl f.name p.name _ hpname habs) hgo

theorem extractGo_skips (k : String) (fs : List MLIRFunc) (tbl tbl2 : Table)
    (hfs : ∀ f ∈ fs, f.name = k → scanFunc f = FuncScan.skip)
    (h : findTbl k tbl = none)
    (hgo : extractGo fs tbl = ExtractResult.ok tbl2) :
    findTbl k tbl2 = none := by
  induction fs generalizing tbl with
  | nil =>
    simp only [extractGo, ExtractResult.ok.injEq] at hgo
    exact hgo ▸ h
  | cons f fs ih =>
    have hfs2 : ∀ g ∈ fs, g.name = k → scanFunc g = FuncScan.skip :=
      fun g hg => hfs g (List.mem_cons_of_mem f hg)
    simp only [extractGo] at hgo
    cases hscan : scanFunc f <;> rw [hscan] at hgo
    · exact absurd hgo (by simp)
    · exact ih tbl hfs2 h hgo
    case record m =>
      have hname : f.name ≠ k := by
        intro heq
        rw [hfs f (List.mem_cons_self f fs) heq] at hscan
        exact absurd hscan (by simp)
      exact ih _ hfs2 (tryEmplace_absent tbl k f.name m hname h) hgo

theorem extractGo_nodup (fs : List MLIRFunc) (tbl tbl2 : Table)
    (h : (tbl.map Prod.fst).Nodup)
    (hgo : extractGo fs tbl = ExtractResult.ok tbl2) :
    (tbl2.map Prod.fst).Nodup := by
  induction fs generalizing tbl with
  | nil =>
    simp only [extractGo, ExtractResult.ok.injEq] at hgo
    exact hgo ▸ h
  | cons f fs ih =>
    simp only [extractGo] at hgo
    cases hscan : scanFunc f <;> rw [hscan] at hgo
    · exact absurd hgo (by simp)
    · exact ih tbl h hgo
    · exact ih _ (tryEmplace_nodup tbl f.name _ h) hgo

theorem extractGo_crash (fs : List MLIRFunc) (f : MLIRFunc) (tbl : Table)
    (hf : f ∈ fs) (hscan : scanFunc f = FuncScan.crash) :
    extractGo fs tbl = ExtractResult.crash := by
  induction fs generalizing tbl with
  | nil => cases hf
  | cons g fs ih =>
    rcases List.mem_cons.mp hf with heq | hmem
    · subst heq
      simp [extractGo, hscan]
    · simp only [extractGo]
      cases hg : scanFunc g
      · rfl
      · exact ih tbl hmem
      · exact ih _ hmem

/- ## Helper lemmas about amendment and re-attachment -/

theorem amendLLVMFunc_eq_append (fname : String) (metadata : NVVMMetadata)
    (anns : List MDEntry) :
    amendLLVMFunc fname metadata anns = anns ++ amendList fname metadata := by
  unfold amendLLVMFunc amendList
  by_cases h1 : 0 < metadata.maxntidx <;> by_cases h2 : metadata.is_kernel <;>
    simp [h1, h2]

theorem mem_amendList (fname : String) (metadata : NVVMMetadata) (e : MDEntry)
    (h : e ∈ amendList fname metadata) :
    (e = ⟨fname, "maxntidx", metadata.maxntidx⟩ ∧ 0 < metadata.maxntidx) ∨
    (e = ⟨fname, "kernel", 1⟩ ∧ metadata.is_kernel = true) := by
  unfold amendList at h
  by_cases h1 : 0 < metadata.maxntidx <;> by_cases h2 : metadata.is_kernel <;>
    simp [h1, h2] at h <;> tauto

theorem reattachAnns_exists_append (tbl : Table) (fs : List LLVMFunction)
    (anns : List MDEntry) :
    ∃ tail, reattachAnns tbl fs anns = anns ++ tail := by
  induction fs generalizing anns with
  | nil => exact ⟨[], (List.append_nil anns).symm⟩
  | cons f fs ih =>
    simp only [reattachAnns]
    cases hfind : findTbl f.name tbl with
    | none => exact ih anns
    | some meta =>
      obtain ⟨tail, ht⟩ := ih (amendLLVMFunc f.name meta anns)
      refine ⟨amendList f.name meta ++ tail, ?_⟩
      show reattachAnns tbl fs (amendLLVMFunc f.name meta anns) =
        anns ++ (amendList f.name meta ++ tail)
      rw [ht, amendLLVMFunc_eq_append, List.append_assoc]

theorem mem_reattachAnns_of_mem (tbl : Table) (fs : List LLVMFunction)
    (anns : List MDEntry) (e : MDEntry) (h : e ∈ anns) :
    e ∈ reattachAnns tbl fs anns := by
  obtain ⟨tail, ht⟩ := reattachAnns_exists_append tbl fs anns
  rw [ht]
  exact List.mem_append_left tail h

theorem reattachAnns_adds (tbl : Table) (fs : List LLVMFunction)
    (g : LLVMFunction) (meta : NVVMMetadata) (e : MDEntry)
    (hg : g ∈ fs) (hfind : findTbl g.name tbl = some meta)
    (he : e ∈ amendList g.name meta) :
    ∀ anns, e ∈ reattachAnns tbl fs anns := by
  induction fs with
  | nil => cases hg
  | cons f fs ih =>
    intro anns
    rcases List.mem_cons.mp hg with heq | hmem
    · subst heq
      simp only [reattachAnns]
      rw [hfind]
      apply mem_reattachAnns_of_mem
      rw [amendLLVMFunc_eq_append]
      exact List.mem_append_right anns he
    · simp only [reattachAnns]
      cases hf : findTbl f.name tbl with
      | none => exact ih hmem anns
      | some meta2 => exact ih hmem _

theorem mem_reattachAnns_cases (tbl : Table) (fs : List LLVMFunction)
    (anns : List MDEntry) (e : MDEntry) (h : e ∈ reattachAnns tbl fs anns) :
    e ∈ anns ∨ ∃ g, g ∈ fs ∧ ∃ meta, findTbl g.name tbl = some meta ∧
      e ∈ amendList g.name meta := by
  induction fs generalizing anns with
  | nil => exact Or.inl h
  | cons f fs ih =>
    simp only [reattachAnns] at h
    cases hf : findTbl f.name tbl with
    | none =>
      rw [hf] at h
      rcases ih anns h with hl | ⟨g, hg, meta, hfind, hmem⟩
      · exact Or.inl hl
      · exact Or.inr ⟨g, List.mem_cons_of_mem f hg, meta, hfind, hmem⟩
    | some meta =>
      rw [hf] at h
      rcases ih _ h with hl | ⟨g, hg, meta2, hfind, hmem⟩
      · rw [amendLLVMFunc_eq_append] at hl
        rcases List.mem_append.mp hl with hl2 | hl2
        · exact Or.inl hl2
        · exact Or.inr ⟨f, List.mem_cons_self f fs, meta, hf, hl2⟩
      · exact Or.inr ⟨g, List.mem_cons_of_mem f hg, meta2, hfind, hmem⟩

/- ## Helper lemmas about the driver and the narrowing -/

theorem toInt32_of_range (v : Int) (h1 : -2147483648 ≤ v) (h2 : v < 2147483648) :
    toInt32 v = v := by
  unfold toInt32
  omega

theorem scanFunc_kernel (f : MLIRFunc) (m : NVVMMetadata)
    (hscan : scanFunc f = FuncScan.record m) (hk : f.kernelAttr = true) :
    m.is_kernel = true := by
  unfold scanFunc at hscan
  split at hscan
  next v2 heq =>
    have h := FuncScan.record.inj hscan
    rw [← h]
    exact hk
  next heq => exact absurd hscan (by simp)
  next heq =>
    rw [hk] at hscan
    simp only [if_true] at hscan
    have h := FuncScan.record.inj hscan
    rw [← h]

theorem scanFunc_maxntid (f : MLIRFunc) (m : NVVMMetadata) (v : Int)
    (hscan : scanFunc f = FuncScan.record m)
    (hv : f.maxntidAttr = some (MLIRAttr.intAttr v)) :
    m.maxntidx = toInt32 v := by
  unfold scanFunc at hscan
  rw [hv] at hscan
  have h := FuncScan.record.inj hscan
  rw [← h]

theorem TranslateLLVMToLLVMIR_ok_elim (translate : MLIRModule → Option LLVMModule)
    (optimize : LLVMModule → Except String LLVMModule)
    (module : MLIRModule) (out : LLVMModule)
    (hres : TranslateLLVMToLLVMIR translate optimize module = TransResult.ok out) :
    ∃ tbl l opt, extractNVVMMetadata module = ExtractResult.ok tbl ∧
      translate module = some l ∧ optimize l = Except.ok opt ∧
      out = reattach tbl opt := by
  unfold TranslateLLVMToLLVMIR at hres
  split at hres
  next hx => exact absurd hres (by simp)
  next tbl hx =>
    split at hres
    next ht => exact absurd hres (by simp)
    next l ht =>
      split at hres
      next e ho => exact absurd hres (by simp)
      next opt ho =>
        simp only [TransResult.ok.injEq] at hres
        exact ⟨tbl, l, opt, hx, ht, ho, hres.symm⟩

/- ## Claim theorems -/

/-- C2: if the generic translator returns no module (and extraction, which
runs before it, completed), `TranslateLLVMToLLVMIR` returns the null result
with the diagnostic written to the error channel, performs no re-attachment
and returns no partially populated module: the result is exactly
`TransResult.err "Failed to emit LLVM IR\n"`, which carries no module and
no metadata. -/
theorem c2_translation_failure (translate : MLIRModule → Option LLVMModule)
    (optimize : LLVMModule → Except String LLVMModule) (module : MLIRModule)
    (tbl : Table)
    (hx : extractNVVMMetadata module = ExtractResult.ok tbl)
    (ht : translate module = none) :
    TranslateLLVMToLLVMIR translate optimize module =
      TransResult.err "Failed to emit LLVM IR\n" := by
  unfold TranslateLLVMToLLVMIR
  rw [hx, ht]

/-- Witness for C2 at a concrete input: an empty module whose translation
oracle rejects it. -/
theorem c2_translation_failure_witness :
    TranslateLLVMToLLVMIR (fun _ => none) (fun m => Except.ok m)
      (MLIRModule.mk []) = TransResult.err "Failed to emit LLVM IR\n" :=
  c2_translation_failure (fun _ => none) (fun m => Except.ok m)
    (MLIRModule.mk []) [] rfl rfl

/-- C6: if the optimization pipeline reports an error, the component
returns the null result together with the underlying error description on
the error channel; the partially optimized module is not returned. -/
theorem c6_optimization_failure (translate : MLIRModule → Option LLVMModule)
    (optimize : LLVMModule → Except String LLVMModule) (module : MLIRModule)
    (tbl : Table) (l : LLVMModule) (e : String)
    (hx : extractNVVMMetadata module = ExtractResult.ok tbl)
    (ht : translate module = some l)
    (ho : optimize l = Except.error e) :
    TranslateLLVMToLLVMIR translate optimize module =
      TransResult.err ("Failed to optimize LLVM IR " ++ e ++ "\n") := by
  unfold TranslateLLVMToLLVMIR
  simp only [hx, ht, ho]

/-- Witness for C6 at a concrete input: a pipeline oracle that reports an
error named by the string "broken pipeline". -/
theorem c6_optimization_failure_witness :
    TranslateLLVMToLLVMIR (fun _ => some (LLVMModule.mk [] []))
      (fun _ => Except.error "broken pipeline") (MLIRModule.mk []) =
      TransResult.err ("Failed to optimize LLVM IR " ++ "broken pipeline" ++ "\n") :=
  c6_optimization_failure (fun _ => some (LLVMModule.mk [] []))
    (fun _ => Except.error "broken pipeline") (MLIRModule.mk [])
    [] (LLVMModule.mk [] []) "broken pipeline" rfl rfl rfl

/-- C7: re-attachment is additive only — for every (module, side-table)
pair the output collection is the input collection with a (possibly empty)
list of new entries appended, so every pre-existing entry is still present,
unmodified and in its original position. -/
theorem c7_additivity (tbl : Table) (m : LLVMModule) :
    ∃ tail, (reattach tbl m).nvvmAnns = m.nvvmAnns ++ tail :=
  reattachAnns_exists_append tbl m.funcs m.nvvmAnns

/-- C8: the side-table built by extraction holds at most one record per
function name, for every source module on which extraction completes. -/
theorem c8_unique_keys (module : MLIRModule) (tbl : Table)
    (hx : extractNVVMMetadata module = ExtractResult.ok tbl) :
    (tbl.map Prod.fst).Nodup :=
  extractGo_nodup module.funcs [] tbl (by simp) hx

/-- Witness for C8 at a concrete input in which the same name occurs on two
function definitions: only the first record for the name survives. -/
theorem c8_unique_keys_witness :
    (([("a", ({ maxntidx := -1, is_kernel := true } : NVVMMetadata))] : Table).map
      Prod.fst).Nodup :=
  c8_unique_keys
    (MLIRModule.mk [MLIRFunc.mk "a" none true,
      MLIRFunc.mk "a" (some (MLIRAttr.intAttr 5)) false])
    [("a", { maxntidx := -1, is_kernel := true })] (by decide)

/-- C9: a function definition carrying neither the thread-group-limit
attribute nor the entry-point attribute contributes no record: if every
function named `n` carries neither attribute, the side-table has no record
for `n`. -/
theorem c9_no_record (module : MLIRModule) (n : String) (tbl : Table)
    (hx : extractNVVMMetadata module = ExtractResult.ok tbl)
    (hn : ∀ f ∈ module.funcs, f.name = n →
      f.maxntidAttr = none ∧ f.kernelAttr = false) :
    findTbl n tbl = none := by
  apply extractGo_skips n module.funcs [] tbl _ rfl hx
  intro f hf hname
  obtain ⟨h1, h2⟩ := hn f hf hname
  simp [scanFunc, h1, h2]

/-- Witness for C9 at a concrete input: a module with an unannotated
function "plain" and an entry-point function "k". -/
theorem c9_no_record_witness :
    findTbl "plain"
      [("k", ({ maxntidx := -1, is_kernel := true } : NVVMMetadata))] = none :=
  c9_no_record
    (MLIRModule.mk [MLIRFunc.mk "plain" none false, MLIRFunc.mk "k" none true])
    "plain" [("k", { maxntidx := -1, is_kernel := true })]
    (by decide) (by decide)

/-- C3 counterexample: the claim says every record whose thread-group
limit is set to any value other than the unset sentinel (-1) yields a
"maxntidx" node, including a limit of 0. For the record with
`maxntidx = 0` (0 is not the sentinel -1), a matching function "f" in the
module gets no metadata node at all: the re-attacher leaves the module
unchanged, because `amendLLVMFunc` guards on `maxntidx > 0`, not on
`maxntidx != -1`. -/
theorem c3_counterexample :
    reattach [("f", ({ maxntidx := 0, is_kernel := false } : NVVMMetadata))]
        (LLVMModule.mk [LLVMFunction.mk "f"] []) =
      LLVMModule.mk [LLVMFunction.mk "f"] [] ∧
    ((0 : Int) ≠ -1) := by
  exact ⟨by decide, by decide⟩

/-- C3, amended: for a matched record, `amendLLVMFunc` appends the
`(func, "maxntidx", value)` node if and only if the record's limit is
strictly positive (so a limit of 0, or any negative stored value, yields
no node), and the `(func, "kernel", 1)` node if and only if the record's
entry-point flag is set. -/
theorem c3_emission_iff (fname : String) (metadata : NVVMMetadata) (v : Int) :
    ((MDEntry.mk fname "maxntidx" v) ∈ amendLLVMFunc fname metadata [] ↔
      0 < metadata.maxntidx ∧ v = metadata.maxntidx) ∧
    ((MDEntry.mk fname "kernel" 1) ∈ amendLLVMFunc fname metadata [] ↔
      metadata.is_kernel = true) := by
  rw [amendLLVMFunc_eq_append]
  unfold amendList
  by_cases h1 : 0 < metadata.maxntidx <;> by_cases h2 : metadata.is_kernel <;>
    simp [h1, h2]

/-- C4 counterexample: on a function whose thread-group-limit attribute is
not encoded as an integer, extraction does not fail fast with a
descriptive message as the claim states: it reaches
`attr.dyn_cast<IntegerAttr>().getInt()` on a null attribute and aborts
with no diagnostic (`ExtractResult.crash` carries none), whereas the
spec-modelled extractor produces the descriptive error the claim
describes. -/
theorem c4_counterexample :
    extractNVVMMetadata
        (MLIRModule.mk [MLIRFunc.mk "f" (some MLIRAttr.otherAttr) false]) =
      ExtractResult.crash ∧
    extractNVVMMetadataSpec
        (MLIRModule.mk [MLIRFunc.mk "f" (some MLIRAttr.otherAttr) false]) =
      Except.error ("non-integer maxntid attribute on function " ++ "f") := by
  exact ⟨rfl, rfl⟩

/-- C4, amended: on a non-integer thread-group-limit encoding the
extractor neither silently coerces nor defaults the value — it fails
(aborts via the unchecked cast dereference) — but without the descriptive
message the claim states: whenever any function of the module carries the
attribute with a non-integer encoding, the whole extraction result is
`ExtractResult.crash`, which carries no diagnostic. -/
theorem c4_crash_without_message (module : MLIRModule) (f : MLIRFunc)
    (hf : f ∈ module.funcs) (ha : f.maxntidAttr = some MLIRAttr.otherAttr) :
    extractNVVMMetadata module = ExtractResult.crash :=
  extractGo_crash module.funcs f [] hf (by simp [scanFunc, ha])

/-- Witness for the amended C4 at a concrete input. -/
theorem c4_crash_without_message_witness :
    extractNVVMMetadata
        (MLIRModule.mk [MLIRFunc.mk "g" (some MLIRAttr.otherAttr) true]) =
      ExtractResult.crash :=
  c4_crash_without_message
    (MLIRModule.mk [MLIRFunc.mk "g" (some MLIRAttr.otherAttr) true])
    (MLIRFunc.mk "g" (some MLIRAttr.otherAttr) true) (by decide) rfl

/-- C10: the thread-group-limit travels through a narrower type. The
64-bit attribute value `v` is stored by extraction into the 32-bit signed
field as `toInt32 v` (the value reduced modulo 2^32 and reinterpreted
signed: it agrees with `v` modulo 2^32 = 4294967296 and lies in
[-2147483648, 2147483648)), and for any `v` outside that range the stored
value differs from `v`; whenever a node is emitted for such a record
(stored value positive), the emitted constant is the wrapped value, not
the original. -/
theorem c10_narrowing (v : Int) (fname : String)
    (hout : v < -2147483648 ∨ 2147483648 ≤ v) :
    scanFunc (MLIRFunc.mk fname (some (MLIRAttr.intAttr v)) false) =
      FuncScan.record { maxntidx := toInt32 v, is_kernel := false } ∧
    toInt32 v % 4294967296 = v % 4294967296 ∧
    -2147483648 ≤ toInt32 v ∧ toInt32 v < 2147483648 ∧
    toInt32 v ≠ v ∧
    (0 < toInt32 v →
      amendLLVMFunc fname { maxntidx := toInt32 v, is_kernel := false } [] =
        [MDEntry.mk fname "maxntidx" (toInt32 v)]) := by
  refine ⟨rfl, ?_, ?_, ?_, ?_, ?_⟩
  · unfold toInt32; omega
  · unfold toInt32; omega
  · unfold toInt32; omega
  · unfold toInt32; rcases hout with h | h <;> omega
  · intro hpos
    simp [amendLLVMFunc, hpos]

/-- Witness for C10 at the concrete input 2^32 + 5 = 4294967301: the
stored and emitted value is 5, not the original. -/
theorem c10_narrowing_witness :
    toInt32 4294967301 = 5 ∧
    toInt32 4294967301 ≠ 4294967301 ∧
    amendLLVMFunc "f" { maxntidx := toInt32 4294967301, is_kernel := false } [] =
      [MDEntry.mk "f" "maxntidx" (toInt32 4294967301)] := by
  have h := c10_narrowing 4294967301 "f" (Or.inr (by decide))
  exact ⟨by decide, h.2.2.2.2.1, h.2.2.2.2.2 (by decide)⟩

/-- C1 counterexample: the claim promises a "maxntidx" entry carrying the
same integer value whenever the thread-group-limit attribute was set and
the function survives. Function "kernel0" carries the limit attribute with
value 0 (set) and the entry-point attribute, survives translation and
optimization by name, yet the output holds only the "kernel" entry — no
"maxntidx" entry with value 0 appears, because `amendLLVMFunc` requires
`maxntidx > 0`. -/
theorem c1_counterexample :
    TranslateLLVMToLLVMIR
        (fun _ => some (LLVMModule.mk [LLVMFunction.mk "kernel0"] []))
        (fun m => Except.ok m)
        (MLIRModule.mk [MLIRFunc.mk "kernel0" (some (MLIRAttr.intAttr 0)) true]) =
      TransResult.ok
        (LLVMModule.mk [LLVMFunction.mk "kernel0"]
          [MDEntry.mk "kernel0" "kernel" 1]) ∧
    (MDEntry.mk "kernel0" "maxntidx" 0) ∉ [MDEntry.mk "kernel0" "kernel" 1] := by
  exact ⟨by decide, by decide⟩

/-- C1, amended: for a function carrying the entry-point attribute and/or
the thread-group-limit attribute — the function being the first of its
name in the source module — if it is still present by name in the output
module, the output's annotation collection contains the corresponding
entries: a `(func, "kernel", 1)` entry when the entry-point attribute was
set, and a `(func, "maxntidx", v)` entry with the attribute's value `v`
when the limit attribute was set to a strictly positive value below
2^31 = 2147483648 (values ≤ 0, or outside the 32-bit signed range, are
covered by C3/C10: they yield no entry or a wrapped value). -/
theorem c1_preservation (translate : MLIRModule → Option LLVMModule)
    (optimize : LLVMModule → Except String LLVMModule) (module : MLIRModule)
    (pre post : List MLIRFunc) (f : MLIRFunc) (m : NVVMMetadata) (v : Int)
    (out : LLVMModule) (g : LLVMFunction)
    (hsplit : module.funcs = pre ++ f :: post)
    (hpre : ∀ p ∈ pre, p.name ≠ f.name)
    (hscan : scanFunc f = FuncScan.record m)
    (hres : TranslateLLVMToLLVMIR translate optimize module = TransResult.ok out)
    (hg : g ∈ out.funcs) (hgname : g.name = f.name) :
    (f.maxntidAttr = some (MLIRAttr.intAttr v) → 0 < v → v < 2147483648 →
      (MDEntry.mk f.name "maxntidx" v) ∈ out.nvvmAnns) ∧
    (f.kernelAttr = true → (MDEntry.mk f.name "kernel" 1) ∈ out.nvvmAnns) := by
  obtain ⟨tbl, l, opt, hx, ht, ho, hout⟩ :=
    TranslateLLVMToLLVMIR_ok_elim translate optimize module out hres
  have hgo : extractGo (pre ++ f :: post) [] = ExtractResult.ok tbl := by
    have hdef : extractNVVMMetadata module = extractGo module.funcs [] := rfl
    rw [hdef, hsplit] at hx
    exact hx
  have hfind : findTbl f.name tbl = some m :=
    extractGo_reach post f m hscan pre [] tbl hpre rfl hgo
  subst hout
  have hgf : g ∈ opt.funcs := hg
  have hfindg : findTbl g.name tbl = some m := by rw [hgname]; exact hfind
  constructor
  · intro hv hpos hlt
    have hmx : m.maxntidx = toInt32 v := scanFunc_maxntid f m v hscan hv
    have hval : m.maxntidx = v := by
      rw [hmx]
      exact toInt32_of_range v (by omega) hlt
    have he : (MDEntry.mk f.name "maxntidx" v) ∈ amendList g.name m := by
      unfold amendList
      rw [hgname, hval]
      simp [hpos]
    exact reattachAnns_adds tbl opt.funcs g m _ hgf hfindg he opt.nvvmAnns
  · intro hk
    have hker : m.is_kernel = true := scanFunc_kernel f m hscan hk
    have he : (MDEntry.mk f.name "kernel" 1) ∈ amendList g.name m := by
      unfold amendList
      rw [hgname, hker]
      simp
    exact reattachAnns_adds tbl opt.funcs g m _ hgf hfindg he opt.nvvmAnns

/-- Witness for the amended C1 at a concrete input: "kernel0" with
entry-point set and limit 256 survives and receives both entries. -/
theorem c1_preservation_witness :
    (MDEntry.mk "kernel0" "maxntidx" 256) ∈
      [MDEntry.mk "kernel0" "maxntidx" 256, MDEntry.mk "kernel0" "kernel" 1] ∧
    (MDEntry.mk "kernel0" "kernel" 1) ∈
      [MDEntry.mk "kernel0" "maxntidx" 256, MDEntry.mk "kernel0" "kernel" 1] := by
  have h := c1_preservation
    (fun _ => some (LLVMModule.mk [LLVMFunction.mk "kernel0"] []))
    (fun m => Except.ok m)
    (MLIRModule.mk [MLIRFunc.mk "kernel0" (some (MLIRAttr.intAttr 256)) true])
    [] [] (MLIRFunc.mk "kernel0" (some (MLIRAttr.intAttr 256)) true)
    { maxntidx := 256, is_kernel := true } 256
    (LLVMModule.mk [LLVMFunction.mk "kernel0"]
      [MDEntry.mk "kernel0" "maxntidx" 256, MDEntry.mk "kernel0" "kernel" 1])
    (LLVMFunction.mk "kernel0")
    rfl (by simp) (by decide) (by decide) (by decide) rfl
  exact ⟨h.1 rfl (by decide) (by decide), h.2 rfl⟩

/-- C5: non-fabrication. Every entry produced by the component (present in
the returned module's collection but not among the entries the optimized
module already had) references a function name that exists in the output
module and appears in the side-table with a non-default value for the
emitted field: a strictly positive (hence non-sentinel) limit for
"maxntidx", a set entry-point flag for "kernel". A function eliminated by
optimization is absent from the output function list, so no entry is
produced for it. -/
theorem c5_non_fabrication (translate : MLIRModule → Option LLVMModule)
    (optimize : LLVMModule → Except String LLVMModule) (module : MLIRModule)
    (tbl : Table) (l opt out : LLVMModule) (e : MDEntry)
    (hx : extractNVVMMetadata module = ExtractResult.ok tbl)
    (ht : translate module = some l)
    (ho : optimize l = Except.ok opt)
    (hres : TranslateLLVMToLLVMIR translate optimize module = TransResult.ok out)
    (he : e ∈ out.nvvmAnns) (hnew : e ∉ opt.nvvmAnns) :
    (∃ g, g ∈ out.funcs ∧ g.name = e.funcName) ∧
    ∃ meta, findTbl e.funcName tbl = some meta ∧
      ((e.key = "maxntidx" ∧ e.value = meta.maxntidx ∧ 0 < meta.maxntidx ∧
          meta.maxntidx ≠ -1) ∨
       (e.key = "kernel" ∧ e.value = 1 ∧ meta.is_kernel = true)) := by
  obtain ⟨tbl2, l2, opt2, hx2, ht2, ho2, hout⟩ :=
    TranslateLLVMToLLVMIR_ok_elim translate optimize module out hres
  rw [hx] at hx2
  injection hx2 with htbl
  subst htbl
  rw [ht] at ht2
  injection ht2 with hl
  subst hl
  rw [ho] at ho2
  injection ho2 with hopt
  subst hopt
  subst hout
  have he2 : e ∈ reattachAnns tbl opt.funcs opt.nvvmAnns := he
  rcases mem_reattachAnns_cases tbl opt.funcs opt.nvvmAnns e he2 with
    hold | ⟨g, hg, meta, hfind, hmem⟩
  · exact absurd hold hnew
  · rcases mem_amendList g.name meta e hmem with ⟨heq, hpos⟩ | ⟨heq, hker⟩
    · subst heq
      exact ⟨⟨g, hg, rfl⟩, meta, hfind, Or.inl ⟨rfl, rfl, hpos, by omega⟩⟩
    · subst heq
      exact ⟨⟨g, hg, rfl⟩, meta, hfind, Or.inr ⟨rfl, rfl, hker⟩⟩

/-- Witness for C5 at a concrete input: the "maxntidx" entry produced for
"a" references a surviving function whose table record has limit 7. -/
theorem c5_non_fabrication_witness :
    (∃ g, g ∈ (LLVMModule.mk [LLVMFunction.mk "a"]
        [MDEntry.mk "x" "pre" 9, MDEntry.mk "a" "maxntidx" 7,
          MDEntry.mk "a" "kernel" 1]).funcs ∧
      g.name = (MDEntry.mk "a" "maxntidx" 7).funcName) ∧
    ∃ meta, findTbl (MDEntry.mk "a" "maxntidx" 7).funcName
        [("a", ({ maxntidx := 7, is_kernel := true } : NVVMMetadata))] =
        some meta ∧
      (((MDEntry.mk "a" "maxntidx" 7).key = "maxntidx" ∧
          (MDEntry.mk "a" "maxntidx" 7).value = meta.maxntidx ∧
          0 < meta.maxntidx ∧ meta.maxntidx ≠ -1) ∨
       ((MDEntry.mk "a" "maxntidx" 7).key = "kernel" ∧
          (MDEntry.mk "a" "maxntidx" 7).value = 1 ∧ meta.is_kernel = true)) :=
  c5_non_fabrication
    (fun _ => some (LLVMModule.mk [LLVMFunction.mk "a"] [MDEntry.mk "x" "pre" 9]))
    (fun m => Except.ok m)
    (MLIRModule.mk [MLIRFunc.mk "a" (some (MLIRAttr.intAttr 7)) true])
    [("a", { maxntidx := 7, is_kernel := true })]
    (LLVMModule.mk [LLVMFunction.mk "a"] [MDEntry.mk "x" "pre" 9])
    (LLVMModule.mk [LLVMFunction.mk "a"] [MDEntry.mk "x" "pre" 9])
    (LLVMModule.mk [LLVMFunction.mk "a"]
      [MDEntry.mk "x" "pre" 9, MDEntry.mk "a" "maxntidx" 7,
        MDEntry.mk "a" "kernel" 1])
    (MDEntry.mk "a" "maxntidx" 7)
    (by decide) rfl rfl (by decide) (by decide) (by decide)

end TritonLLVMIR
